import Mathlib

/-!
# Verification of the catcli catalog-tree core (`catcli/noder.py`)

This file gives a shallow embedding of the catalog-tree data model and the
operations of `Noder` (`src/catcli/noder.py`) and proves/refutes the frozen
claims about them.

Modelling conventions:
* An `anytree.AnyNode` is modelled by `Node`, keeping exactly the attributes
  the embedded operations read or write: `name`, `type`, `relpath`, `size`
  and the ordered list of `children`.  The remaining attributes created by
  `Noder` (`free`, `total`, `ts`, `attr`, `md5`, `archive`) are only ever
  read by the printing/display layer, which the spec places out of scope,
  so they are omitted.  `size = none` models a node on which the Python
  attribute `size` is absent or `None`; `relpath = none` likewise.
* Node mutation (anytree attaches children in place, `rec_size` assigns
  `node.size`) is modelled by functions returning the updated subtree.
* Python strings are Lean `String`s; `str.lower` is modelled ASCII-wise by
  `Char.toLower` (all names in the claims are ASCII), `str.split('/')`,
  `str.rstrip('/')` and substring tests (`in`) are embedded on `List Char`.
* The `anytree.Resolver` used by `get_node`, `walk` and `_add_entry` is an
  external library (not part of this repository), so its exact and glob
  resolution are modelled from the spec, see `resolve` and `globResolve`.
-/

namespace Catcli

/-- The node type tags of `Noder` (`TYPE_TOP`, `TYPE_FILE`, `TYPE_DIR`,
`TYPE_ARC`, `TYPE_STORAGE`, `TYPE_META`). -/
inductive NType where
  | top
  | file
  | dir
  | arc
  | storage
  | meta
deriving DecidableEq, Repr

/-- The string value of each type tag in the Python source (`TYPE_TOP = 'top'`
etc.); these strings are what `_sort_fs` compares. -/
def type_str : NType → String
  | .top => "top"
  | .file => "file"
  | .dir => "dir"
  | .arc => "arc"
  | .storage => "storage"
  | .meta => "meta"

mutual
/-- A catalog-tree node (`anytree.AnyNode` as built by `Noder`): name, type
tag, optional `relpath`, optional `size`, ordered children. -/
inductive Node where
  | mk (name : String) (type : NType) (relpath : Option String)
       (size : Option Nat) (children : NodeList) : Node
/-- The ordered children of a node. -/
inductive NodeList where
  | nil : NodeList
  | cons (n : Node) (ns : NodeList) : NodeList
end

deriving instance DecidableEq for Node, NodeList

def Node.name : Node → String
  | .mk nm _ _ _ _ => nm

def Node.type : Node → NType
  | .mk _ ty _ _ _ => ty

def Node.relpath : Node → Option String
  | .mk _ _ rp _ _ => rp

def Node.size : Node → Option Nat
  | .mk _ _ _ sz _ => sz

def Node.children : Node → NodeList
  | .mk _ _ _ _ cs => cs

/-- View a `NodeList` as a `List Node`. -/
def NodeList.toList : NodeList → List Node
  | .nil => []
  | .cons c cs => c :: cs.toList

/-- Append a node at the end of a child list (anytree attaches a new child at
the end of `parent.children`). -/
def NodeList.append : NodeList → Node → NodeList
  | .nil, c => .cons c .nil
  | .cons h t, c => .cons h (t.append c)

/-- Attach `c` as the last child of `p` (what constructing an anytree node
with `parent=p` does). -/
def appendChild (p : Node) (c : Node) : Node :=
  match p with
  | .mk nm ty rp sz cs => .mk nm ty rp sz (cs.append c)

/-! ## String helpers (embeddings of the Python string operations used) -/

/-- Python `str.lower`, ASCII-wise. -/
def strLower (s : String) : String := String.mk (s.data.map Char.toLower)

/-- `needle` is a leading segment of `hay` (helper for the substring test). -/
def listIsPre : List Char → List Char → Bool
  | [], _ => true
  | _ :: _, [] => false
  | a :: as, b :: bs => a == b && listIsPre as bs

/-- Python `needle in hay` on strings: `needle` occurs contiguously in `hay`. -/
def listIsSub : List Char → List Char → Bool
  | n, [] => n.isEmpty
  | n, b :: bs => listIsPre n (b :: bs) || listIsSub n bs

/-- Python `s.split('/')` (never returns an empty list; `"".split('/') = [""]`). -/
def splitSlashAux : List Char → List (List Char)
  | [] => [[]]
  | c :: rest =>
    if c == '/' then [] :: splitSlashAux rest
    else
      match splitSlashAux rest with
      | [] => [[c]]
      | g :: gs => (c :: g) :: gs

def pySplit (s : String) : List String := (splitSlashAux s.data).map String.mk

/-- Python `s.rstrip('/')`. -/
def rstripSlash (s : String) : String :=
  String.mk ((s.data.reverse.dropWhile (fun c => c == '/')).reverse)

/-! ## `Noder.rec_size` (noder.py lines 316-331)

```python
def rec_size(self, node):
    if node.type == self.TYPE_FILE:
        return node.size
    size = 0
    for i in node.children:
        if node.type == self.TYPE_DIR:
            size += self.rec_size(i)
        if node.type == self.TYPE_STORAGE:
            self.rec_size(i)
        else:
            continue
    node.size = size
    return size
```

The two `if`s are sequential (not `elif`): per child, a `dir` node recurses
and accumulates, a `storage` node recurses and discards the result, any
other type skips the child.  After the loop `node.size = size` runs for
every non-file node.  The result pair is (updated subtree, returned size);
for a file whose `size` attribute is `None` the Python code would return
`None` (and the caller would fail adding it) — files built by `file_node`
always carry an integer size, which `getD 0` reflects. -/

mutual
def rec_size : Node → Node × Nat
  | .mk nm ty rp sz cs =>
    if ty == NType.file then (.mk nm ty rp sz cs, sz.getD 0)
    else
      let r := rec_size_list ty cs
      (.mk nm ty rp (some r.2) r.1, r.2)

/-- The loop of `rec_size` over `node.children`, parametrised by the type of
the (fixed) parent node; returns the updated children and the final `size`
accumulator. -/
def rec_size_list : NType → NodeList → NodeList × Nat
  | _, .nil => (.nil, 0)
  | ty, .cons c cs =>
    let rest := rec_size_list ty cs
    if ty == NType.dir then
      let r := rec_size c
      (.cons r.1 rest.1, r.2 + rest.2)
    else if ty == NType.storage then
      let r := rec_size c
      (.cons r.1 rest.1, rest.2)
    else
      (.cons c rest.1, rest.2)
end

/-! ## Tree traversal and `Noder.find_name` (noder.py lines 196-220) -/

mutual
/-- Pre-order traversal of a subtree (`anytree.PreOrderIter`, which is what
`anytree.findall` filters over): the node itself, then each child subtree in
order. -/
def preorder : Node → List Node
  | .mk nm ty rp sz cs => .mk nm ty rp sz cs :: preorderList cs

def preorderList : NodeList → List Node
  | .nil => []
  | .cons c cs => preorder c ++ preorderList cs
end

/-- The filter `_find_name`: `self.term.lower() in node.name.lower()`. -/
def nameMatch (key : String) (n : Node) : Bool :=
  listIsSub (strLower key).data (strLower n.name).data

/-- `find_name`'s return value: `anytree.findall(root, filter_=self._find_name)`,
i.e. every node of the subtree (storage nodes included) whose name contains
the search term case-insensitively, in pre-order. -/
def find_name (root : Node) (key : String) : List Node :=
  (preorder root).filter (fun n => nameMatch key n)

/-- The `paths` list accumulated inside `find_name`: the loop over the found
nodes `continue`s on storage nodes and appends `f.relpath` for the rest.
(A found node without a `relpath` attribute would raise in Python; the model
keeps the `Option`.) -/
def find_name_paths (root : Node) (key : String) : List (Option String) :=
  ((find_name root key).filter (fun n => !(n.type == NType.storage))).map Node.relpath

/-! ## Path resolution (`Noder.get_node`, noder.py lines 59-66)

`get_node` delegates to `anytree.resolver.Resolver('name').get`, which is an
external library.  Modelled from the spec (§4.3): exact resolution walks the
slash-separated path segment by segment, matching children by exact name,
and fails at the first unmatched segment; `get_node` catches the resolver
failure and returns no node (`None`). -/

/-- Modelled from the spec: the resolver's child lookup — the first child
whose `name` equals the segment. -/
def firstChildNamed (cs : NodeList) (s : String) : Option Node :=
  cs.toList.find? (fun c => c.name == s)

/-- Modelled from the spec: exact resolution, segment by segment. -/
def resolve : Node → List String → Option Node
  | t, [] => some t
  | t, s :: ss =>
    match firstChildNamed t.children s with
    | some c => resolve c ss
    | none => none

/-- `get_node(top, path)`: resolve the slash-delimited path; `None` on
resolver failure (`NotFound`). -/
def get_node (top : Node) (path : String) : Option Node :=
  resolve top (pySplit path)

/-! ## Sorting (`Noder._sort_tree` / `_sort` / `_sort_fs` / `_sort_size`,
noder.py lines 276-296)

`sorted(items, key=..., reverse=...)` is CPython's stable sort; with
`reverse=True` CPython reverses the list, sorts ascending (stable), and
reverses again.  Timsort's output is the unique stable ascending reordering
for a total key order, so a stable insertion sort is an exact model. -/

/-- Stable insertion of `x` into `l`: `x` is placed before the first element
`y` with `le x y` (so an earlier element precedes later ties). -/
def insertOrd (le : Node → Node → Bool) (x : Node) : List Node → List Node
  | [] => [x]
  | y :: ys => if le x y then x :: y :: ys else y :: insertOrd le x ys

/-- Stable ascending sort (the semantics of CPython `sorted` without
`reverse`). -/
def pysort (le : Node → Node → Bool) : List Node → List Node
  | [] => []
  | x :: xs => insertOrd le x (pysort le xs)

/-- CPython `sorted(l, key=..., reverse=rev)`: with `reverse=True` the list
is reversed, sorted ascending stably, and reversed again. -/
def py_sorted (le : Node → Node → Bool) (rev : Bool) (l : List Node) : List Node :=
  if rev then (pysort le l.reverse).reverse else pysort le l

/-- Code-point comparison of strings (Python string `<`), on the char lists. -/
def strLt : List Char → List Char → Bool
  | [], [] => false
  | [], _ :: _ => true
  | _ :: _, [] => false
  | a :: as, b :: bs => a.toNat < b.toNat || (a == b && strLt as bs)

/-- `_sort_fs` key: the pair `(n.type, n.name.lstrip('\\.').lower())` — the
type tag string first, then the name lower-cased with leading `\\` and `.`
characters stripped (`'\\.'` in Python is the two-character set). -/
def _sort_fs (n : Node) : String × String :=
  (type_str n.type, strLower (String.mk (n.name.data.dropWhile (fun c => c == '.' || c == '\\'))))

/-- `_sort_size` key: `n.size`, treating an absent/`None`/falsy size as 0. -/
def _sort_size (n : Node) : Nat := n.size.getD 0

/-- Python `<=` on the `_sort_fs` tuple keys (lexicographic). -/
def le_fs (a b : Node) : Bool :=
  let ka := _sort_fs a
  let kb := _sort_fs b
  strLt ka.1.data kb.1.data || (ka.1 == kb.1 && (ka.2 == kb.2 || strLt ka.2.data kb.2.data))

/-- Python `<=` on the `_sort_size` keys. -/
def le_size (a b : Node) : Bool := _sort_size a ≤ _sort_size b

/-- The comparison used by `_sort`: by size when `sortsize` is set, else by
the fs key. -/
def nodeLe (sortsize : Bool) : Node → Node → Bool :=
  if sortsize then le_size else le_fs

/-- `_sort_tree(items)`: `sorted(items, key=self._sort, reverse=self.sortsize)`
— the sort direction is tied to the policy (name: ascending, size:
descending). -/
def _sort_tree (sortsize : Bool) (items : List Node) : List Node :=
  py_sorted (nodeLe sortsize) sortsize items

/-! ## Glob resolution (`Noder.walk`, noder.py lines 225-245)

`walk` delegates to `anytree.resolver.Resolver('name').glob` (external
library).  Modelled from the spec (§4.3): each segment may contain wildcard
patterns and resolution returns the list (possibly empty) of all nodes
matching the full pattern; `walk` catches any resolver error.  Wildcards are
`*` (any run) and `?` (any one character). -/

/-- Glob-pattern match of a pattern against a name (both as char lists). -/
def globMatch (p : List Char) (s : List Char) : Bool :=
  match p, s with
  | [], [] => true
  | [], _ :: _ => false
  | '*' :: ps, [] => globMatch ps []
  | '*' :: ps, c :: cs => globMatch ps (c :: cs) || globMatch ('*' :: ps) cs
  | '?' :: _, [] => false
  | '?' :: ps, _ :: cs => globMatch ps cs
  | p :: ps, c :: cs => p == c && globMatch ps cs
  | _ :: _, [] => false
termination_by (s.length, p.length)

/-- Modelled from the spec: glob resolution — all nodes reached from `t` by
matching each segment's pattern against child names, in traversal order. -/
def globResolve : Node → List String → List Node
  | t, [] => [t]
  | t, s :: ss =>
    ((t.children.toList.filter (fun c => globMatch s.data c.name.data)).map
      (fun c => globResolve c ss)).flatten

/-- `walk(root, path)` with the default `rec=False`: glob-resolve the path;
return `[]` when nothing matched (or the resolver failed), else the matches
sorted by the active policy (`sorted(found, key=self._sort,
reverse=self.sortsize)`) — the list that is printed and returned. -/
def walk (sortsize : Bool) (root : Node) (path : String) : List Node :=
  let found := globResolve root (pySplit path)
  if found.length < 1 then [] else _sort_tree sortsize found

/-! ## Archive flattening (`Noder._add_entry` / `list_to_tree`,
noder.py lines 250-271) -/

/-- `archive_node(name, path, parent, archive)` builds an arc-typed node with
`relpath=path`, `size=0`, `md5=None` (attachment to `parent` is done by the
caller in this functional model; the `archive` label attribute is only read
by printing). -/
def archive_node (name path : String) : Node :=
  .mk name .arc (some path) (some 0) .nil

mutual
/-- Modelled from the spec: `resolv.get(top, sub)` followed by attaching a
new child under the resolved node, as one functional update.  Walks `segs`
from `t` taking at each step the first child with the exact segment name;
`none` when a segment has no matching child (the resolver's
`ChildResolverError`). -/
def attachAt : Node → List String → Node → Option Node
  | .mk nm ty rp sz cs, [], c => some (.mk nm ty rp sz (cs.append c))
  | .mk nm ty rp sz cs, s :: ss, c =>
    match attachAtList cs s ss c with
    | some cs' => some (.mk nm ty rp sz cs')
    | none => none

/-- Helper of `attachAt`: rebuild the child list, descending into the first
child named `s` (no backtracking to later same-named siblings — the resolver
commits to the first name match). -/
def attachAtList : NodeList → String → List String → Node → Option NodeList
  | .nil, _, _, _ => none
  | .cons h t, s, ss, c =>
    if h.name == s then
      match attachAt h ss c with
      | some h' => some (.cons h' t)
      | none => none
    else
      match attachAtList t s ss c with
      | some t' => some (.cons h t')
      | none => none
end

/-- `_add_entry(name, top, resolv)`: split the member path; a single segment
is attached directly under the archive node with the full `name` as display
name; otherwise the parent segment chain is resolved under the archive's
existing children and the entry (display name = last segment, relpath = full
`name`) is attached there, falling back to attaching it directly under the
archive node when resolution fails. -/
def _add_entry (name : String) (top : Node) : Node :=
  let entries := pySplit (rstripSlash name)
  if entries.length == 1 then appendChild top (archive_node name name)
  else
    let sub := entries.dropLast
    let f := entries.getLastD ""
    match attachAt top sub (archive_node f name) with
    | some t => t
    | none => appendChild top (archive_node f name)

/-- `list_to_tree(parent, names)`: nothing on an empty list, else each member
path is `rstrip('/')`-ed and added in order (later members can resolve under
archive nodes added for earlier ones). -/
def list_to_tree (parent : Node) (names : List String) : Node :=
  match names with
  | [] => parent
  | _ => names.foldl (fun t nm => _add_entry (rstripSlash nm) t) parent

/-! ## Relative paths of `file_node` / `dir_node` (noder.py lines 88-118)

`file_node` computes
`relpath = os.path.join(os.path.basename(storagepath), os.path.relpath(path, start=storagepath))`
while `dir_node` computes `relpath = os.path.relpath(path, start=storagepath)`.
Filesystem paths are modelled as the segment lists of normalised absolute
paths (what `os.path.abspath` produces), and `os.path.relpath` /
`os.path.basename` / `os.path.join` are embedded on that representation. -/

/-- Length of the common leading segment run (`os.path.commonprefix` on the
two segment lists, as `posixpath.relpath` uses it). -/
def commonPrefixLen : List String → List String → Nat
  | a :: as, b :: bs => if a == b then commonPrefixLen as bs + 1 else 0
  | _, _ => 0

/-- `posixpath.relpath(path, start)` on segment lists:
`['..'] * (len(start) - i) + path[i:]`, or `['.']` when that is empty. -/
def relpathSegs (path start : List String) : List String :=
  let i := commonPrefixLen start path
  let rel := List.replicate (start.length - i) ".." ++ path.drop i
  if rel.isEmpty then ["."] else rel

/-- `os.path.basename` of a normalised path: its last segment. -/
def basename (p : List String) : String := p.getLastD ""

/-- The `relpath` stored by `file_node`:
`join(basename(storagepath), relpath(path, start=storagepath))`. -/
def file_node_relpath (storagepath path : List String) : List String :=
  basename storagepath :: relpathSegs path storagepath

/-- The `relpath` stored by `dir_node`: `relpath(path, start=storagepath)`. -/
def dir_node_relpath (storagepath path : List String) : List String :=
  relpathSegs path storagepath

/-! ## Specification-side predicates -/

/-- `chain t segs m`: `m` is reached from `t` by following, segment by
segment, a child whose name equals the segment (the spec's description of
exact resolution). -/
def chain : Node → List String → Node → Prop
  | t, [], m => m = t
  | t, s :: ss, m => ∃ c, c ∈ t.children.toList ∧ c.name = s ∧ chain c ss m

/-- `globChain t segs m`: `m` is reached from `t` by following, segment by
segment, a child whose name matches the segment's glob pattern (the spec's
"nodes matching the full pattern"). -/
def globChain : Node → List String → Node → Prop
  | t, [], m => m = t
  | t, s :: ss, m =>
    ∃ c, c ∈ t.children.toList ∧ globMatch s.data c.name.data = true ∧ globChain c ss m

/-- No two elements of the list are equal (on the children's names). -/
def nodupStr : List String → Bool
  | [] => true
  | x :: xs => !(xs.contains x) && nodupStr xs

mutual
/-- Sibling names are pairwise distinct throughout the subtree (name
uniqueness among siblings is not enforced by the data model; exact
resolution picks the first match, so it returns *the* matching node exactly
when names are unambiguous). -/
def uniqNames : Node → Bool
  | .mk _ _ _ _ cs => nodupStr ((cs.toList).map Node.name) && uniqNamesList cs

def uniqNamesList : NodeList → Bool
  | .nil => true
  | .cons c cs => uniqNames c && uniqNamesList cs
end

mutual
/-- Every node of the subtree is an archive-member (`arc`) node. -/
def arcOnly : Node → Bool
  | .mk _ ty _ _ cs => ty == NType.arc && arcOnlyList cs

def arcOnlyList : NodeList → Bool
  | .nil => true
  | .cons c cs => arcOnly c && arcOnlyList cs
end

mutual
/-- A fully built catalog subtree rooted at a storage, dir or file node, as
the Tree Builder produces it: a storage's or dir's children are dir or file
nodes (recursively well formed), a file's children are archive-member
subtrees. -/
def wf : Node → Bool
  | .mk _ ty _ _ cs =>
    match ty with
    | .file => arcOnlyList cs
    | .dir => wfChildren cs
    | .storage => wfChildren cs
    | _ => false

def wfChildren : NodeList → Bool
  | .nil => true
  | .cons c cs =>
    (c.type == NType.dir || c.type == NType.file) && wf c && wfChildren cs
end

mutual
/-- Sum of the stored sizes of every file-typed node in the subtree
(an absent size counts 0; in a fully built tree every file has one). -/
def subtreeFileSum : Node → Nat
  | .mk _ ty _ sz cs => (if ty == NType.file then sz.getD 0 else 0) + subtreeFileSumList cs

def subtreeFileSumList : NodeList → Nat
  | .nil => 0
  | .cons c cs => subtreeFileSum c + subtreeFileSumList cs
end

mutual
/-- Every dir node of the subtree carries `size = some` (sum of the sizes of
the file nodes among its descendants). -/
def dirSizesOk : Node → Bool
  | .mk _ ty _ sz cs =>
    (ty != NType.dir || sz == some (subtreeFileSumList cs)) && dirSizesOkList cs

def dirSizesOkList : NodeList → Bool
  | .nil => true
  | .cons c cs => dirSizesOk c && dirSizesOkList cs
end

/-- Each child subtree run through `rec_size` (what the `storage` branch of
the loop does to the children). -/
def recSizeEach : NodeList → NodeList
  | .nil => .nil
  | .cons c cs => .cons (rec_size c).1 (recSizeEach cs)

/-! ## Concrete trees used by counterexamples and witnesses
(the spec's example scenario 1: Storage "usb1" containing Dir "music" with
File "song.mp3" (1000 bytes) and File "cover.jpg" (500 bytes)). -/

def songNode : Node := .mk "song.mp3" .file (some "usb1/music/song.mp3") (some 1000) .nil

def coverNode : Node := .mk "cover.jpg" .file (some "usb1/music/cover.jpg") (some 500) .nil

def musicDir : Node :=
  .mk "music" .dir (some "music") none (.cons songNode (.cons coverNode .nil))

def usb1Storage : Node := .mk "usb1" .storage none none (.cons musicDir .nil)

def topNode : Node := .mk "top" .top none none (.cons usb1Storage .nil)

/-- The spec's example scenario 3: archive file "photos.zip" with member list
`["a/b.jpg"]` and no pre-existing children. -/
def photosZip : Node := .mk "photos.zip" .file (some "usb1/photos.zip") (some 100) .nil

/-- Two file nodes with equal sizes, in insertion order "a" then "b". -/
def nodeTieA : Node := .mk "a" .file none (some 5) .nil
def nodeTieB : Node := .mk "b" .file none (some 5) .nil

/-- A childless node (nothing for a glob to match under). -/
def leafNode : Node := .mk "leaf" .top none none .nil

/-! ## Mutual induction helper -/

/-- Simultaneous induction over `Node` and `NodeList`. -/
theorem node_mutual {P : Node → Prop} {Q : NodeList → Prop}
    (hmk : ∀ nm ty rp sz cs, Q cs → P (.mk nm ty rp sz cs))
    (hnil : Q .nil)
    (hcons : ∀ c cs, P c → Q cs → Q (.cons c cs)) :
    (∀ n, P n) ∧ (∀ cs, Q cs) :=
  ⟨fun n => Node.rec hmk hnil hcons n, fun cs => NodeList.rec hmk hnil hcons cs⟩

/-! ## Lemmas about `rec_size` -/

/-- For a parent that is neither a dir nor a storage, the loop of `rec_size`
skips every child (`continue`) and the accumulator stays 0. -/
theorem rec_size_list_skip (ty : NType) (h1 : (ty == NType.dir) = false)
    (h2 : (ty == NType.storage) = false) : ∀ cs, rec_size_list ty cs = (cs, 0) :=
  (node_mutual (P := fun _ => True)
    (Q := fun cs => rec_size_list ty cs = (cs, 0))
    (fun _ _ _ _ _ _ => trivial)
    (by simp [rec_size_list])
    (fun c cs _ ih => by simp [rec_size_list, ih, h1, h2])).2

/-- For a storage parent, the loop recurses into every child (updating it)
and discards the returned sizes. -/
theorem rec_size_list_storage : ∀ cs, rec_size_list NType.storage cs = (recSizeEach cs, 0) :=
  (node_mutual (P := fun _ => True)
    (Q := fun cs => rec_size_list NType.storage cs = (recSizeEach cs, 0))
    (fun _ _ _ _ _ _ => trivial)
    (by simp [rec_size_list, recSizeEach])
    (fun c cs _ ih => by simp [rec_size_list, recSizeEach, ih])).2

/-- Running `rec_size` twice changes nothing: the recomputation only depends
on the tree structure and the file sizes, neither of which `rec_size`
alters. -/
theorem rec_size_idem_all :
    (∀ n, rec_size (rec_size n).1 = rec_size n) ∧
    (∀ cs, ∀ ty, rec_size_list ty (rec_size_list ty cs).1 = rec_size_list ty cs) :=
  node_mutual
    (P := fun n => rec_size (rec_size n).1 = rec_size n)
    (Q := fun cs => ∀ ty, rec_size_list ty (rec_size_list ty cs).1 = rec_size_list ty cs)
    (fun nm ty rp sz cs ih => by
      rcases Bool.eq_false_or_eq_true (ty == NType.file) with hf | hf
      · simp [rec_size, hf]
      · simp [rec_size, hf, ih ty])
    (fun _ => by simp [rec_size_list])
    (fun c cs ihc ihcs ty => by
      rcases Bool.eq_false_or_eq_true (ty == NType.dir) with hd | hd
      · have : ty = NType.dir := by simpa using hd
        subst this
        simp [rec_size_list, ihc, ihcs NType.dir]
      · rcases Bool.eq_false_or_eq_true (ty == NType.storage) with hs | hs
        · have : ty = NType.storage := by simpa using hs
          subst this
          simp [rec_size_list, ihc, ihcs NType.storage]
        · simp [rec_size_list_skip ty hd hs])

/-- Archive-member subtrees contain no file node, so they contribute 0. -/
theorem arcOnly_sum_zero :
    (∀ n, arcOnly n = true → subtreeFileSum n = 0) ∧
    (∀ cs, arcOnlyList cs = true → subtreeFileSumList cs = 0) :=
  node_mutual
    (fun nm ty rp sz cs ih h => by
      simp [arcOnly] at h
      obtain ⟨h1, h2⟩ := h
      subst h1
      simp [subtreeFileSum, ih h2])
    (fun _ => rfl)
    (fun c cs ihc ihcs h => by
      simp [arcOnlyList] at h
      simp [subtreeFileSumList, ihc h.1, ihcs h.2])

/-- Archive-member subtrees contain no dir node, so the dir-size condition
holds vacuously in them. -/
theorem arcOnly_dirSizesOk :
    (∀ n, arcOnly n = true → dirSizesOk n = true) ∧
    (∀ cs, arcOnlyList cs = true → dirSizesOkList cs = true) :=
  node_mutual
    (fun nm ty rp sz cs ih h => by
      simp [arcOnly] at h
      obtain ⟨h1, h2⟩ := h
      subst h1
      simp [dirSizesOk, ih h2])
    (fun _ => rfl)
    (fun c cs ihc ihcs h => by
      simp [arcOnlyList] at h
      simp [dirSizesOkList, ihc h.1, ihcs h.2])

/-- `rec_size` never changes the set of file nodes or their sizes: the sum of
file sizes over any subtree is invariant under it. -/
theorem rec_size_file_sum :
    (∀ n, subtreeFileSum (rec_size n).1 = subtreeFileSum n) ∧
    (∀ cs, ∀ ty, subtreeFileSumList (rec_size_list ty cs).1 = subtreeFileSumList cs) :=
  node_mutual
    (fun nm ty rp sz cs ih => by
      rcases Bool.eq_false_or_eq_true (ty == NType.file) with hf | hf
      · simp [rec_size, hf]
      · simp [rec_size, hf, subtreeFileSum, ih ty])
    (fun _ => by simp [rec_size_list])
    (fun c cs ihc ihcs ty => by
      rcases Bool.eq_false_or_eq_true (ty == NType.dir) with hd | hd
      · have : ty = NType.dir := by simpa using hd
        subst this
        simp [rec_size_list, subtreeFileSumList, ihc, ihcs NType.dir]
      · rcases Bool.eq_false_or_eq_true (ty == NType.storage) with hs | hs
        · have : ty = NType.storage := by simpa using hs
          subst this
          simp [rec_size_list, subtreeFileSumList, ihc, ihcs NType.storage]
        · simp [rec_size_list_skip ty hd hs])

/-- Main aggregation lemma: on a well-formed subtree, `rec_size` returns the
file-size sum for a dir or file node, and afterwards every dir node of the
updated subtree stores the sum of its descendant file sizes. -/
theorem rec_size_wf_main :
    (∀ n, wf n = true →
      ((n.type = NType.dir ∨ n.type = NType.file) → (rec_size n).2 = subtreeFileSum n) ∧
      dirSizesOk (rec_size n).1 = true) ∧
    (∀ cs, wfChildren cs = true →
      (rec_size_list NType.dir cs).2 = subtreeFileSumList cs ∧
      dirSizesOkList (rec_size_list NType.dir cs).1 = true ∧
      dirSizesOkList (rec_size_list NType.storage cs).1 = true) :=
  node_mutual
    (fun nm ty rp sz cs ih hwf => by
      cases ty with
      | top => simp [wf] at hwf
      | meta => simp [wf] at hwf
      | arc => simp [wf] at hwf
      | file =>
        simp [wf] at hwf
        constructor
        · intro _
          simp [rec_size, subtreeFileSum, arcOnly_sum_zero.2 cs hwf]
        · simp [rec_size, dirSizesOk, arcOnly_dirSizesOk.2 cs hwf]
      | dir =>
        simp [wf] at hwf
        obtain ⟨hsum, hok, _⟩ := ih hwf
        constructor
        · intro _
          simp [rec_size, subtreeFileSum, hsum]
        · simp [rec_size, dirSizesOk, hsum, hok, rec_size_file_sum.2 cs NType.dir]
      | storage =>
        simp [wf] at hwf
        obtain ⟨_, _, hok⟩ := ih hwf
        constructor
        · intro h
          simp [Node.type] at h
        · simp [rec_size, dirSizesOk, hok])
    (fun _ => by simp [rec_size_list, dirSizesOkList, subtreeFileSumList])
    (fun c cs ihc ihcs hwf => by
      simp [wfChildren] at hwf
      obtain ⟨⟨hty, hwfc⟩, hwfcs⟩ := hwf
      have Pc := ihc hwfc
      have Qcs := ihcs hwfcs
      refine ⟨?_, ?_, ?_⟩
      · simp [rec_size_list, subtreeFileSumList, Pc.1 hty, Qcs.1]
      · simp [rec_size_list, dirSizesOkList, Pc.2, Qcs.2.1]
      · simp [rec_size_list, dirSizesOkList, Pc.2, Qcs.2.2])

/-! ## Claims C1, C4, C6, C10 -/

/-- Claim C1, counterexample: after `rec_size` on the example Storage "usb1",
the Storage's child Dir "music" did get its size populated (1500), but the
Storage node's own `size` field is *not* left unset — the trailing
`node.size = size` assignment of `rec_size` runs for every non-file node and
sets it to 0. -/
theorem c1_counterexample :
    ((rec_size usb1Storage).1).children.toList.map Node.size = [some 1500] ∧
    ((rec_size usb1Storage).1).size = some 0 ∧
    ¬ ((rec_size usb1Storage).1).size = none := by decide

/-- Claim C1 (amended): `rec_size` on a Storage node recurses into each child
(populating the children's sizes) and never accumulates their sizes, but it
does set the Storage node's own `size` field — to 0 — before returning 0. -/
theorem c1_storage_rec_size (nm : String) (rp : Option String) (sz : Option Nat)
    (cs : NodeList) :
    rec_size (.mk nm NType.storage rp sz cs) =
      (.mk nm NType.storage rp (some 0) (recSizeEach cs), 0) := by
  simp [rec_size, rec_size_list_storage]

/-- Claim C4 (confirmed): after `rec_size` on a well-formed subtree rooted at
a Storage or Dir node, every dir node of the resulting subtree stores
exactly the sum of the sizes of its descendant file nodes (files contribute
their stored size, archive-member nodes contribute zero since they are not
file-typed). -/
theorem c4_dir_sizes (n : Node) (hwf : wf n = true)
    (_hroot : n.type = NType.dir ∨ n.type = NType.storage) :
    dirSizesOk (rec_size n).1 = true :=
  (rec_size_wf_main.1 n hwf).2

/-- Witness for C4 on the example tree: Storage "usb1" ∋ Dir "music" ∋ files
of 1000 and 500 bytes. -/
theorem c4_witness : dirSizesOk (rec_size usb1Storage).1 = true :=
  c4_dir_sizes usb1Storage (by decide) (Or.inr (by decide))

/-- Claim C6 (confirmed): `rec_size` is idempotent — a second run reproduces
exactly the same tree (hence the same sizes everywhere) and the same
returned value, because sizes are recomputed from the file leaves, not
incremented. -/
theorem c6_rec_size_idempotent (n : Node) : rec_size (rec_size n).1 = rec_size n :=
  rec_size_idem_all.1 n

/-- Claim C10 (confirmed): `rec_size` on the Top node recurses into none of
its children (the loop's `dir`/`storage` tests both fail, so every child is
skipped unchanged — no Dir in the catalog receives a size), sets the Top
node's own `size` to 0 and returns 0. -/
theorem c10_rec_size_top (nm : String) (rp : Option String) (sz : Option Nat)
    (cs : NodeList) :
    rec_size (.mk nm NType.top rp sz cs) = (.mk nm NType.top rp (some 0) cs, 0) := by
  simp [rec_size, rec_size_list_skip NType.top rfl rfl]

/-! ## Claim C2 -/

/-- Claim C2, counterexample: searching "usb" over the example tree returns
exactly the Storage node "usb1" — `find_name` returns the raw `findall`
result, and the `continue` that skips storage nodes only affects the printed
output and the collected relpath list, not the returned collection. -/
theorem c2_counterexample :
    find_name topNode "usb" = [usb1Storage] ∧ usb1Storage.type = NType.storage := by
  decide

/-- Claim C2 (amended): `find_name` returns every node of the tree whose name
contains the query term case-insensitively — Storage nodes included; Storage
nodes are excluded only from the relpath list the loop accumulates (and from
the printed output). -/
theorem c2_find_name (root : Node) (key : String) (n : Node) :
    (n ∈ find_name root key ↔ n ∈ preorder root ∧ nameMatch key n = true) ∧
    find_name_paths root key =
      ((preorder root).filter
        (fun m => !(m.type == NType.storage) && nameMatch key m)).map Node.relpath := by
  constructor
  · simp [find_name, List.mem_filter]
  · simp [find_name_paths, find_name, List.filter_filter]

/-- Witness for C2 at the example tree and the Storage node "usb1". -/
theorem c2_witness :
    (usb1Storage ∈ find_name topNode "usb" ↔
      usb1Storage ∈ preorder topNode ∧ nameMatch "usb" usb1Storage = true) ∧
    find_name_paths topNode "usb" =
      ((preorder topNode).filter
        (fun m => !(m.type == NType.storage) && nameMatch "usb" m)).map Node.relpath :=
  c2_find_name topNode "usb" usb1Storage

/-! ## Claim C3 -/

/-- Claim C3, counterexample: flattening `["a/b.jpg"]` under "photos.zip"
(which has no "a" child) attaches a single Archive child whose display name
is `b.jpg` — the *last* path segment — not the full original path `a/b.jpg`;
the full path is kept only in the child's `relpath`. -/
theorem c3_counterexample :
    (list_to_tree photosZip ["a/b.jpg"]).children.toList.map Node.name = ["b.jpg"] ∧
    ¬ (list_to_tree photosZip ["a/b.jpg"]).children.toList.map Node.name = ["a/b.jpg"] ∧
    (list_to_tree photosZip ["a/b.jpg"]).children.toList.map Node.relpath = [some "a/b.jpg"] := by
  decide

/-- Claim C3 (amended): for a member path of two or more segments whose parent
segment chain does not resolve under the archive node's existing children,
`_add_entry` attaches the member directly under the archive File node as a
single Archive child whose display name is the member's last path segment,
with the member's full original path stored as the child's `relpath`. -/
theorem c3_add_entry_fallback (name : String) (top : Node)
    (hlen : 2 ≤ (pySplit (rstripSlash name)).length)
    (hfail : attachAt top (pySplit (rstripSlash name)).dropLast
      (archive_node ((pySplit (rstripSlash name)).getLastD "") name) = none) :
    _add_entry name top =
      appendChild top
        (.mk ((pySplit (rstripSlash name)).getLastD "") NType.arc (some name) (some 0) .nil) := by
  unfold _add_entry
  have h1 : ((pySplit (rstripSlash name)).length == 1) = false := by
    rw [beq_eq_false_iff_ne]
    omega
  simp only [archive_node, List.getLastD_eq_getLast?] at hfail
  simp [h1, archive_node, hfail]

/-- Witness for C3 at member "a/b.jpg" under "photos.zip". -/
theorem c3_witness :
    _add_entry "a/b.jpg" photosZip =
      appendChild photosZip (.mk "b.jpg" NType.arc (some "a/b.jpg") (some 0) .nil) :=
  c3_add_entry_fallback "a/b.jpg" photosZip (by decide) (by decide)

/-! ## Claim C5 -/

theorem commonPrefixLen_append (sp rest : List String) :
    commonPrefixLen sp (sp ++ rest) = sp.length := by
  induction sp with
  | nil => simp [commonPrefixLen]
  | cons a as ih => simp [commonPrefixLen, ih]

/-- Claim C5, counterexample: for Storage path `/mnt/usb1` and file
`/mnt/usb1/music/song.mp3`, `file_node` stores `usb1/music/song.mp3` — the
Storage directory's basename is prepended, so the File's relpath is *not*
expressed relative to the Storage root (that would be `music/song.mp3`,
which is exactly what `dir_node` would store): Dir and File relpaths are not
in the same form. -/
theorem c5_counterexample :
    file_node_relpath ["mnt", "usb1"] ["mnt", "usb1", "music", "song.mp3"] =
      ["usb1", "music", "song.mp3"] ∧
    dir_node_relpath ["mnt", "usb1"] ["mnt", "usb1", "music", "song.mp3"] =
      ["music", "song.mp3"] ∧
    ¬ file_node_relpath ["mnt", "usb1"] ["mnt", "usb1", "music", "song.mp3"] =
      ["music", "song.mp3"] := by
  decide

/-- Claim C5 (amended): for a node at `storagepath ++ rest` under the Storage
rooted at `storagepath`, `dir_node` stores the path relative to the Storage
root (`rest`), while `file_node` stores the Storage directory's basename
followed by that relative path — one extra leading segment, so File
relpaths are rooted one level above the Storage root and differ from Dir
relpaths in form. -/
theorem c5_relpath_forms (sp rest : List String) (hr : rest ≠ []) :
    dir_node_relpath sp (sp ++ rest) = rest ∧
    file_node_relpath sp (sp ++ rest) = basename sp :: rest := by
  have h : relpathSegs (sp ++ rest) sp = rest := by
    simp [relpathSegs, commonPrefixLen_append, hr]
  simp [dir_node_relpath, file_node_relpath, h]

/-- Witness for C5 at Storage path `mnt/usb1` and relative path
`music/song.mp3`. -/
theorem c5_witness :
    dir_node_relpath ["mnt", "usb1"] (["mnt", "usb1"] ++ ["music", "song.mp3"]) =
      ["music", "song.mp3"] ∧
    file_node_relpath ["mnt", "usb1"] (["mnt", "usb1"] ++ ["music", "song.mp3"]) =
      basename ["mnt", "usb1"] :: ["music", "song.mp3"] :=
  c5_relpath_forms ["mnt", "usb1"] ["music", "song.mp3"] (by decide)

/-! ## Claim C9 -/

/-- A successful child lookup returns a child with the looked-up name. -/
theorem firstChildNamed_spec (cs : NodeList) (s : String) (c : Node)
    (h : firstChildNamed cs s = some c) : c ∈ cs.toList ∧ c.name = s := by
  refine ⟨List.mem_of_find?_eq_some h, ?_⟩
  have := List.find?_some h
  simpa using this

/-- With pairwise-distinct names, the first name match is the only one: any
member with the looked-up name is what the lookup returns. -/
theorem find?_name_of_nodup (l : List Node) (s : String) (c : Node)
    (hnd : nodupStr (l.map Node.name) = true) (hc : c ∈ l) (hs : c.name = s) :
    l.find? (fun x => x.name == s) = some c := by
  induction l with
  | nil => cases hc
  | cons h t ih =>
    simp only [List.map_cons, nodupStr, Bool.and_eq_true] at hnd
    obtain ⟨hnc, hnd'⟩ := hnd
    rcases List.mem_cons.mp hc with rfl | hct
    · simp [List.find?, hs]
    · have hne : (h.name == s) = false := by
        rw [beq_eq_false_iff_ne]
        intro hh
        have : c.name ∈ t.map Node.name := List.mem_map_of_mem Node.name hct
        rw [hs, ← hh] at this
        simp [this] at hnc
      simp [List.find?, hne, ih hnd' hct]

theorem uniqNames_parts (n : Node) (h : uniqNames n = true) :
    nodupStr (n.children.toList.map Node.name) = true ∧
    uniqNamesList n.children = true := by
  cases n with
  | mk nm ty rp sz cs => simpa [uniqNames, Node.children] using h

theorem uniqNamesList_mem : ∀ cs : NodeList, uniqNamesList cs = true →
    ∀ c ∈ cs.toList, uniqNames c = true :=
  (node_mutual (P := fun _ => True)
    (Q := fun cs => uniqNamesList cs = true → ∀ c ∈ cs.toList, uniqNames c = true)
    (fun _ _ _ _ _ _ => trivial)
    (fun _ c hc => by cases hc)
    (fun c cs _ ih h c' hc' => by
      simp only [uniqNamesList, Bool.and_eq_true] at h
      rcases List.mem_cons.mp hc' with rfl | hmem
      · exact h.1
      · exact ih h.2 c' hmem)).2

/-- Exact resolution characterised: under pairwise-distinct sibling names,
`resolve` returns `some m` exactly when `m` is reached by matching each
segment against a child's name, and it walks segment by segment, failing
(`none`) as soon as a segment has no matching child. -/
theorem resolve_iff_chain : ∀ (segs : List String) (t : Node), uniqNames t = true →
    ∀ m, (resolve t segs = some m ↔ chain t segs m) := by
  intro segs
  induction segs with
  | nil =>
    intro t _ m
    simp [resolve, chain, eq_comm]
  | cons s ss ih =>
    intro t hu m
    obtain ⟨hnd, hul⟩ := uniqNames_parts t hu
    constructor
    · intro h
      cases hfc : firstChildNamed t.children s with
      | none =>
        simp only [resolve, hfc] at h
        exact Option.noConfusion h
      | some c =>
        simp only [resolve, hfc] at h
        obtain ⟨hmem, hname⟩ := firstChildNamed_spec _ _ _ hfc
        have huc : uniqNames c = true := uniqNamesList_mem _ hul c hmem
        exact ⟨c, hmem, hname, (ih c huc m).mp h⟩
    · rintro ⟨c, hmem, hname, hch⟩
      have huc : uniqNames c = true := uniqNamesList_mem _ hul c hmem
      have hfc : firstChildNamed t.children s = some c :=
        find?_name_of_nodup _ s c hnd hmem hname
      simp only [resolve, hfc]
      exact (ih c huc m).mpr hch

/-- Claim C9 (confirmed): `get_node` walks the slash-delimited path segment
by segment, matching children by exact name; when sibling names are
unambiguous it returns `some` of precisely the node reached by the segment
chain, and it yields no node (`None` after catching the resolver's
`NotFound`) exactly when no node is reachable by the chain — i.e. it fails
at the first unmatched segment. -/
theorem c9_get_node (t : Node) (path : String) (m : Node) (hu : uniqNames t = true) :
    (get_node t path = some m ↔ chain t (pySplit path) m) ∧
    (get_node t path = none ↔ ∀ m', ¬ chain t (pySplit path) m') := by
  have hiff := fun m' => resolve_iff_chain (pySplit path) t hu m'
  refine ⟨hiff m, ?_⟩
  cases hres : resolve t (pySplit path) with
  | none =>
    simp only [get_node, hres]
    constructor
    · intro _ m' hch
      have := (hiff m').mpr hch
      rw [hres] at this
      cases this
    · intro _
      trivial
  | some x =>
    simp only [get_node, hres]
    constructor
    · intro h
      cases h
    · intro hall
      exact absurd ((hiff x).mp hres) (hall x)

/-- Witness for C9: resolving `usb1/music` in the example tree yields the
Dir "music", and the resolution-failure characterisation holds there too. -/
theorem c9_witness :
    (get_node topNode "usb1/music" = some musicDir ↔
      chain topNode (pySplit "usb1/music") musicDir) ∧
    (get_node topNode "usb1/music" = none ↔
      ∀ m', ¬ chain topNode (pySplit "usb1/music") m') :=
  c9_get_node topNode "usb1/music" musicDir (by decide)

/-! ## Claim C7 -/

theorem sublist_insertOrd (le : Node → Node → Bool) (x : Node) :
    ∀ l : List Node, l.Sublist (insertOrd le x l) := by
  intro l
  induction l with
  | nil => simp [insertOrd]
  | cons y ys ih =>
    simp only [insertOrd]
    by_cases h : le x y = true
    · simp only [if_pos h]
      exact List.sublist_cons_self x (y :: ys)
    · simp only [if_neg h]
      exact ih.cons₂ y

theorem insertOrd_perm (le : Node → Node → Bool) (x : Node) :
    ∀ l : List Node, (insertOrd le x l).Perm (x :: l) := by
  intro l
  induction l with
  | nil => exact List.Perm.refl _
  | cons y ys ih =>
    simp only [insertOrd]
    by_cases h : le x y = true
    · simp [if_pos h]
    · simp only [if_neg h]
      exact (ih.cons y).trans (List.Perm.swap x y ys)

theorem pysort_perm (le : Node → Node → Bool) :
    ∀ l : List Node, (pysort le l).Perm l := by
  intro l
  induction l with
  | nil => exact List.Perm.refl _
  | cons x xs ih =>
    simp only [pysort]
    exact (insertOrd_perm le x (pysort le xs)).trans (ih.cons x)

theorem py_sorted_perm (le : Node → Node → Bool) (rev : Bool) (l : List Node) :
    (py_sorted le rev l).Perm l := by
  cases rev with
  | false => simpa [py_sorted] using pysort_perm le l
  | true =>
    simp only [py_sorted, if_pos]
    exact ((List.reverse_perm _).trans (pysort_perm le l.reverse)).trans (List.reverse_perm l)

/-- Inserting `p` into a list containing `q`, when `le p q`, puts `p` before
(each occurrence of) `q`. -/
theorem insertOrd_pair (le : Node → Node → Bool) (p q : Node) (hle : le p q = true) :
    ∀ m : List Node, [q].Sublist m → [p, q].Sublist (insertOrd le p m) := by
  intro m
  induction m with
  | nil => intro h; simp at h
  | cons y ys ih =>
    intro h
    simp only [insertOrd]
    by_cases hxy : le p y = true
    · simp only [if_pos hxy]
      exact h.cons₂ p
    · simp only [if_neg hxy]
      cases h with
      | cons _ h' => exact (ih h').cons y
      | cons₂ _ h' => exact absurd hle hxy

/-- Stability of the stable sort on a tie-or-ordered pair: if `le p q` and
`p` occurs before `q`, the sorted list keeps `p` before `q`. -/
theorem pysort_pair (le : Node → Node → Bool) (p q : Node) (hle : le p q = true) :
    ∀ l : List Node, [p, q].Sublist l → [p, q].Sublist (pysort le l) := by
  intro l
  induction l with
  | nil => intro h; simp at h
  | cons x xs ih =>
    intro h
    simp only [pysort]
    cases h with
    | cons _ h' => exact (ih h').trans (sublist_insertOrd le x _)
    | cons₂ _ h' =>
      have hq : [q].Sublist (pysort le xs) := by
        rw [List.singleton_sublist] at h' ⊢
        exact ((pysort_perm le xs).mem_iff).mpr h'
      exact insertOrd_pair le p q hle _ hq

/-- Size-tied pairs keep their original order under CPython's sort in *both*
directions: ascending (stable sort) and descending
(reverse-sort-reverse). -/
theorem py_sorted_pair (rev : Bool) (a b : Node) (l : List Node)
    (hk : _sort_size a = _sort_size b) (hab : [a, b].Sublist l) :
    [a, b].Sublist (py_sorted le_size rev l) := by
  have h1 : le_size a b = true := by simp [le_size, hk]
  have h2 : le_size b a = true := by simp [le_size, hk]
  cases rev with
  | false => simpa [py_sorted] using pysort_pair le_size a b h1 l hab
  | true =>
    simp only [py_sorted, if_pos]
    have hrev : [b, a].Sublist l.reverse := by simpa using hab.reverse
    simpa using (pysort_pair le_size b a h2 l.reverse hrev).reverse

/-- Claim C7, counterexample: on two equal-size siblings, the size-policy
descending sort (`reverse=True`, stable) keeps insertion order `[a, b]`,
while the reverse of the ascending sort is `[b, a]` — descending is *not*
the reverse of ascending once keys tie. -/
theorem c7_counterexample :
    py_sorted le_size true [nodeTieA, nodeTieB] = [nodeTieA, nodeTieB] ∧
    (py_sorted le_size false [nodeTieA, nodeTieB]).reverse = [nodeTieB, nodeTieA] ∧
    ¬ py_sorted le_size true [nodeTieA, nodeTieB] =
      (py_sorted le_size false [nodeTieA, nodeTieB]).reverse := by
  decide

/-- Claim C7 (amended): `_sort_tree` returns a permutation of its input under
either policy; the size-policy sort is stable — nodes with equal (or
absent, counted 0) sizes keep their original insertion order — and this
holds in both the ascending and the descending direction, which is why the
descending order is the reverse of the ascending order only in the absence
of ties. -/
theorem c7_sort_props :
    (∀ ss l, (_sort_tree ss l).Perm l) ∧
    (∀ rev a b l, _sort_size a = _sort_size b → [a, b].Sublist l →
      [a, b].Sublist (py_sorted le_size rev l)) :=
  ⟨fun ss l => py_sorted_perm (nodeLe ss) ss l,
   fun rev a b l hk hab => py_sorted_pair rev a b l hk hab⟩

/-- Witness for C7 on the two equal-size siblings. -/
theorem c7_witness :
    (_sort_tree true [nodeTieA, nodeTieB]).Perm [nodeTieA, nodeTieB] ∧
    [nodeTieA, nodeTieB].Sublist (py_sorted le_size true [nodeTieA, nodeTieB]) :=
  ⟨c7_sort_props.1 true [nodeTieA, nodeTieB],
   c7_sort_props.2 true nodeTieA nodeTieB [nodeTieA, nodeTieB] (by decide)
     (List.Sublist.refl _)⟩

/-! ## Claim C8 -/

/-- The glob resolver returns exactly the nodes reached by matching every
segment's pattern in turn. -/
theorem globResolve_mem : ∀ (segs : List String) (t : Node) (m : Node),
    m ∈ globResolve t segs ↔ globChain t segs m := by
  intro segs
  induction segs with
  | nil =>
    intro t m
    simp [globResolve, globChain, eq_comm]
  | cons s ss ih =>
    intro t m
    simp only [globResolve, globChain, List.mem_flatten, List.mem_map, List.mem_filter]
    constructor
    · rintro ⟨l, ⟨c, ⟨hmem, hmatch⟩, rfl⟩, hml⟩
      exact ⟨c, hmem, hmatch, (ih c m).mp hml⟩
    · rintro ⟨c, hmem, hmatch, hch⟩
      exact ⟨globResolve c ss, ⟨c, ⟨hmem, hmatch⟩, rfl⟩, (ih c m).mpr hch⟩

/-- Claim C8 (confirmed): `walk` never fails — it always returns a list; a
node is in that list exactly when it matches the full glob pattern, and when
nothing matches, the result is the empty list (the same holds when the
resolver reports failure, which `walk` catches and turns into `[]`). -/
theorem c8_walk (ss : Bool) (root : Node) (path : String) (n : Node) :
    (n ∈ walk ss root path ↔ globChain root (pySplit path) n) ∧
    (globResolve root (pySplit path) = [] → walk ss root path = []) := by
  constructor
  · unfold walk
    by_cases h : (globResolve root (pySplit path)).length < 1
    · simp only [if_pos h]
      have hnil : globResolve root (pySplit path) = [] := by
        cases hg : globResolve root (pySplit path) with
        | nil => rfl
        | cons a l => rw [hg] at h; simp at h
      rw [← globResolve_mem, hnil]
    · simp only [if_neg h]
      unfold _sort_tree
      rw [(py_sorted_perm (nodeLe ss) ss _).mem_iff]
      exact globResolve_mem (pySplit path) root n
  · intro h
    unfold walk
    simp [h]

/-- Witness for C8: a glob over a leaf node matches nothing and yields `[]`. -/
theorem c8_witness : walk true leafNode "a" = [] :=
  (c8_walk true leafNode "a" leafNode).2 (by rfl)

end Catcli
